import Mathlib

/-!
# Verification of the mcp-theanswer quote-store data layer

Shallow embedding of `src/mcp_theanswer/database/operations.py`,
`src/mcp_theanswer/database/schema.py` and `src/mcp_theanswer/seed_data.py`.

The SQLite database is modelled as explicit lists of rows:

* table `quotes`   : list of `QuoteRow` (primary key `id`, AUTOINCREMENT
  modelled by the counter `nextQuoteId`);
* table `tags`     : list of `TagRow` (primary key `id`, `name` UNIQUE,
  AUTOINCREMENT modelled by `nextTagId`);
* table `quote_tags` : list of `(quote_id, tag_id)` pairs with composite
  primary key `(quote_id, tag_id)` and `ON DELETE CASCADE` on `quote_id`
  (the cascade is performed explicitly in `delete_quote`, since
  `PRAGMA foreign_keys = ON` is set on every connection).

`created_at` (`TIMESTAMP DEFAULT CURRENT_TIMESTAMP`) is modelled as an
abstract monotone clock value (`Nat`) assigned at insert time; `ORDER BY
created_at DESC` becomes a deterministic insertion sort on that value.

Operations that the Python code runs inside one transaction are modelled as
pure state transformers `DB → … × DB`; a Python exception before `commit`
(e.g. an `sqlite3.IntegrityError` from the `quote_tags` primary key) is
modelled as `Except.error`, which carries no state: the caller keeps the
pre-call database, matching the implicit rollback performed by
`conn.close()` without `conn.commit()`.
-/

/-- A row of the `quotes` table. -/
structure QuoteRow where
  id : Nat
  text : String
  author : String
  source : Option String
  year : Option Int
  created_at : Nat
deriving Repr, DecidableEq

/-- A row of the `tags` table. -/
structure TagRow where
  id : Nat
  name : String
deriving Repr, DecidableEq

/-- The whole SQLite database file. -/
structure DB where
  quotes : List QuoteRow
  tags : List TagRow
  quote_tags : List (Nat × Nat)
  nextQuoteId : Nat
  nextTagId : Nat
  clock : Nat
deriving Repr, DecidableEq

/-- The `Quote` dataclass of `database/models.py` (as produced by
`Quote.from_row(row, tags)`). -/
structure Quote where
  id : Nat
  text : String
  author : String
  source : Option String
  year : Option Int
  created_at : Nat
  tags : List String
deriving Repr, DecidableEq

/-- Exceptions raised by the operations layer: `InvalidInputError` (with its
message) and `sqlite3.IntegrityError` (primary-key violation). -/
inductive DBError where
  | invalidInput : String → DBError
  | integrity : DBError
deriving Repr, DecidableEq

/-- `Quote.from_row(row, tags)`: build the returned dataclass from a
`quotes` row and a tag-name list. -/
def rowToQuote (r : QuoteRow) (tags : List String) : Quote :=
  ⟨r.id, r.text, r.author, r.source, r.year, r.created_at, tags⟩

/-- Python's `str.strip()`: drop leading and trailing whitespace.
(Defined over the character list so that it evaluates by kernel
reduction; `String.trim` does not.) -/
def strip (s : String) : String :=
  ⟨((s.data.dropWhile Char.isWhitespace).reverse.dropWhile
      Char.isWhitespace).reverse⟩

/-- ASCII-style lowercasing, modelling SQLite's `LOWER()` and the
case-insensitivity of `LIKE`. -/
def lowerStr (s : String) : String :=
  ⟨s.data.map Char.toLower⟩

/-- Lexicographic comparison of character lists by code point, modelling
SQLite's default `BINARY` collation for `ORDER BY` on text columns. -/
def charListLe : List Char → List Char → Bool
  | [], _ => true
  | _ :: _, [] => false
  | a :: as, b :: bs =>
    if a.toNat < b.toNat then true
    else if b.toNat < a.toNat then false
    else charListLe as bs

/-- String comparison for `ORDER BY name`. -/
def strLe (a b : String) : Bool :=
  charListLe a.data b.data

/-- Insert a string into a sorted list of strings (used to model
`ORDER BY t.name`). -/
def insertStr (s : String) : List String → List String
  | [] => [s]
  | t :: r => if strLe s t then s :: t :: r else t :: insertStr s r

/-- Sort a list of strings lexicographically (`ORDER BY name`). -/
def sortStrings : List String → List String
  | [] => []
  | s :: r => insertStr s (sortStrings r)

/-- Insert a quote row into a list sorted by `created_at` descending. -/
def insertRowDesc (q : QuoteRow) : List QuoteRow → List QuoteRow
  | [] => [q]
  | r :: rest =>
    if r.created_at ≤ q.created_at then q :: r :: rest else r :: insertRowDesc q rest

/-- `ORDER BY created_at DESC`: most recent first. -/
def sortRowsDesc : List QuoteRow → List QuoteRow
  | [] => []
  | q :: rest => insertRowDesc q (sortRowsDesc rest)

/-- Insert a `(name, count)` pair into a list sorted by name
(used to model `ORDER BY t.name` in `list_all_tags`). -/
def insertTagCount (p : String × Nat) : List (String × Nat) → List (String × Nat)
  | [] => [p]
  | q :: rest =>
    if strLe p.1 q.1 then p :: q :: rest else q :: insertTagCount p rest

/-- Sort `(name, count)` pairs by name. -/
def sortTagCounts : List (String × Nat) → List (String × Nat)
  | [] => []
  | p :: rest => insertTagCount p (sortTagCounts rest)

/-- `_get_tags_for_quote(conn, quote_id)`: names of the tags joined to the
quote through `quote_tags`, `ORDER BY t.name`. -/
def getTagsForQuote (db : DB) (qid : Nat) : List String :=
  sortStrings ((db.quote_tags.filter (fun p => p.1 == qid)).filterMap
    (fun p => (db.tags.find? (fun t => t.id == p.2)).map TagRow.name))

/-- `_get_or_create_tag(conn, tag_name)`: `SELECT id FROM tags WHERE name = ?`,
insert with the next AUTOINCREMENT id when absent. -/
def getOrCreateTag (db : DB) (name : String) : Nat × DB :=
  match db.tags.find? (fun t => t.name == name) with
  | some t => (t.id, db)
  | none =>
    (db.nextTagId,
     { db with tags := db.tags ++ [⟨db.nextTagId, name⟩],
               nextTagId := db.nextTagId + 1 })

/-- The tag loop shared by `add_quote` and `update_quote`: for each supplied
name, `if tag_name and tag_name.strip():` resolve it via
`_get_or_create_tag` and `INSERT INTO quote_tags (quote_id, tag_id)`; the
composite primary key makes a duplicate insert raise `IntegrityError`.
`acc` collects the stripped names (`tag_names.append(tag_name.strip())`). -/
def addTagsLoop (qid : Nat) : List String → DB → List String →
    Except DBError (List String × DB)
  | [], db, acc => .ok (acc, db)
  | name :: rest, db, acc =>
    if name ≠ "" ∧ strip name ≠ "" then
      let r := getOrCreateTag db (strip name)
      if (qid, r.1) ∈ r.2.quote_tags then .error .integrity
      else
        addTagsLoop qid rest
          { r.2 with quote_tags := r.2.quote_tags ++ [(qid, r.1)] }
          (acc ++ [strip name])
    else addTagsLoop qid rest db acc

/-- The tag names that survive the loop's `if tag_name and tag_name.strip():`
filter, stripped. -/
def survivingTags (l : List String) : List String :=
  (l.filter (fun s => decide (s ≠ "" ∧ strip s ≠ ""))).map strip

/-- `add_quote(db_path, text, author, source, year, tags)`. -/
def add_quote (db : DB) (text author : String) (source : Option String)
    (year : Option Int) (tags : Option (List String)) :
    Except DBError (Quote × DB) :=
  if text = "" ∨ strip text = "" then
    .error (.invalidInput "Quote text cannot be empty")
  else if author = "" ∨ strip author = "" then
    .error (.invalidInput "Author name cannot be empty")
  else
    let qid := db.nextQuoteId
    let row : QuoteRow := ⟨qid, strip text, strip author, source, year, db.clock⟩
    let db₁ : DB :=
      { db with quotes := db.quotes ++ [row], nextQuoteId := qid + 1,
                clock := db.clock + 1 }
    match addTagsLoop qid (tags.getD []) db₁ [] with
    | .error e => .error e
    | .ok (tag_names, db₂) =>
      -- re-fetch of the inserted row (`SELECT … WHERE id = ?`); the row is
      -- always found, `row` is only a formal default for `Option.getD`
      .ok (rowToQuote ((db₂.quotes.find? (fun r => r.id == qid)).getD row)
             tag_names, db₂)

/-- `get_quote_by_id(db_path, quote_id)`. -/
def get_quote_by_id (db : DB) (qid : Nat) : Option Quote :=
  (db.quotes.find? (fun r => r.id == qid)).map
    (fun r => rowToQuote r (getTagsForQuote db r.id))

/-- `get_all_quotes(db_path)`: all quotes, `ORDER BY created_at DESC`. -/
def get_all_quotes (db : DB) : List Quote :=
  (sortRowsDesc db.quotes).map (fun r => rowToQuote r (getTagsForQuote db r.id))

/-- Python truthiness of an optional string (`if query:`). -/
def strTruthy (o : Option String) : Bool :=
  o.getD "" ≠ ""

/-- Python truthiness of an optional list (`if tags:`). -/
def listTruthy (o : Option (List String)) : Bool :=
  !(o.getD []).isEmpty

/-- Case-insensitive substring test, modelling
`q.text LIKE '%' || query || '%'` (SQLite `LIKE` is case-insensitive for
ASCII; the `%`/`_` wildcard meaning of characters inside `query` itself is
not modelled — no claim exercises it). -/
def containsSub (needle : List Char) : List Char → Bool
  | [] => needle.isEmpty
  | c :: rest => needle.isPrefixOf (c :: rest) || containsSub needle rest

/-- Case-insensitive substring test (continued from the doc above). -/
def likeMatch (needle hay : String) : Bool :=
  containsSub (lowerStr needle).data (lowerStr hay).data

/-- `COUNT(DISTINCT t.id)` for one quote group in the tag-filtered join of
`search_quotes`: the distinct ids of tag rows whose name is in the `IN`
list and which are associated with the quote. -/
def tagsMatchCount (db : DB) (qid : Nat) (l : List String) : Nat :=
  (((db.tags.filter
      (fun t => l.contains t.name && db.quote_tags.contains (qid, t.id))).map
      TagRow.id).dedup).length

/-- `search_quotes(db_path, query, author, tags)`. -/
def search_quotes (db : DB) (query author : Option String)
    (tags : Option (List String)) : List Quote :=
  let l := tags.getD []
  let pred := fun (q : QuoteRow) =>
    (!listTruthy tags || decide (tagsMatchCount db q.id l = l.length)) &&
    (!strTruthy query ||
      likeMatch (query.getD "") q.text || likeMatch (query.getD "") q.author) &&
    (!strTruthy author || lowerStr q.author == lowerStr (author.getD ""))
  let rows := (db.quotes.filter pred).dedup
  (sortRowsDesc rows).map (fun r => rowToQuote r (getTagsForQuote db r.id))

/-- The optional fields of `update_quote(db_path, quote_id, **kwargs)`:
`none` models a keyword argument that is absent from `kwargs`. -/
structure UpdateFields where
  text : Option String := none
  author : Option String := none
  source : Option (Option String) := none
  year : Option (Option Int) := none
  tags : Option (List String) := none
deriving Repr, DecidableEq

/-- Apply the `UPDATE quotes SET …` assignments of `update_quote` to the
matching row (`if field in ["text", "author"] and value: value.strip()`). -/
def applyUpdate (f : UpdateFields) (qid : Nat) (r : QuoteRow) : QuoteRow :=
  if r.id == qid then
    { r with
      text := match f.text with
        | some v => if v ≠ "" then strip v else v
        | none => r.text,
      author := match f.author with
        | some v => if v ≠ "" then strip v else v
        | none => r.author,
      source := match f.source with
        | some v => v
        | none => r.source,
      year := match f.year with
        | some v => v
        | none => r.year }
  else r

/-- `update_quote(db_path, quote_id, **kwargs)`. -/
def update_quote (db : DB) (qid : Nat) (f : UpdateFields) :
    Except DBError (Bool × DB) :=
  if f.text.isSome ∧ (f.text.getD "" = "" ∨ strip (f.text.getD "") = "") then
    .error (.invalidInput "Quote text cannot be empty")
  else if f.author.isSome ∧
      (f.author.getD "" = "" ∨ strip (f.author.getD "") = "") then
    .error (.invalidInput "Author name cannot be empty")
  else if ¬ db.quotes.any (fun r => r.id == qid) then
    .ok (false, db)
  else
    let db₁ : DB := { db with quotes := db.quotes.map (applyUpdate f qid) }
    match f.tags with
    | none => .ok (true, db₁)
    | some l =>
      -- `DELETE FROM quote_tags WHERE quote_id = ?` then re-insert
      let db₂ : DB :=
        { db₁ with quote_tags := db₁.quote_tags.filter (fun p => !(p.1 == qid)) }
      match addTagsLoop qid l db₂ [] with
      | .ok r => .ok (true, r.2)
      | .error e => .error e

/-- `delete_quote(db_path, quote_id)`: `DELETE FROM quotes WHERE id = ?`
with the `ON DELETE CASCADE` removal of the quote's associations;
`cursor.rowcount > 0` is the returned Bool. -/
def delete_quote (db : DB) (qid : Nat) : Bool × DB :=
  (db.quotes.any (fun r => r.id == qid),
   { db with
     quotes := db.quotes.filter (fun r => !(r.id == qid)),
     quote_tags := db.quote_tags.filter (fun p => !(p.1 == qid)) })

/-- `add_tag_to_quote(db_path, quote_id, tag)`. -/
def add_tag_to_quote (db : DB) (qid : Nat) (tag : String) :
    Except DBError (Bool × DB) :=
  if tag = "" ∨ strip tag = "" then
    .error (.invalidInput "Tag name cannot be empty")
  else if ¬ db.quotes.any (fun r => r.id == qid) then
    .ok (false, db)
  else
    let r := getOrCreateTag db (strip tag)
    if r.2.quote_tags.contains (qid, r.1) then .ok (true, r.2)
    else .ok (true, { r.2 with quote_tags := r.2.quote_tags ++ [(qid, r.1)] })

/-- `list_all_tags(db_path)`: every tag with its `LEFT JOIN` association
count, `GROUP BY t.id, t.name ORDER BY t.name`. -/
def list_all_tags (db : DB) : List (String × Nat) :=
  sortTagCounts (db.tags.map
    (fun t => (t.name, (db.quote_tags.filter (fun p => p.2 == t.id)).length)))

/-- `check_if_seeded(db_path)` (`schema.py`): true iff at least one quote
row exists. (The missing-file / missing-table cases return false in the
code; the model always has the initialized database value.) -/
def check_if_seeded (db : DB) : Bool :=
  !db.quotes.isEmpty

/-- One entry of `SEED_QUOTES` in `seed_data.py`. -/
structure SeedEntry where
  text : String
  author : String
  source : Option String
  year : Option Int
  tags : List String
deriving Repr, DecidableEq

/-- The `for quote_data in SEED_QUOTES:` loop of `seed_database`: each
`add_quote` failure is caught and skipped, `added_count` increments on
success. -/
def seedLoop : List SeedEntry → DB → Nat → Nat × DB
  | [], db, n => (n, db)
  | e :: rest, db, n =>
    match add_quote db e.text e.author e.source e.year (some e.tags) with
    | .ok r => seedLoop rest r.2 (n + 1)
    | .error _ => seedLoop rest db n

/-- The fixed seed set `SEED_QUOTES` of `seed_data.py`. -/
def SEED_QUOTES : List SeedEntry := [
  ⟨"The answer to the great question of life, the universe and everything is forty-two.",
   "Douglas Adams", some "The Hitchhiker's Guide to the Galaxy", some 1979, ["philosophy", "humor", "existence", "famous"]⟩,
  ⟨"Don't Panic.",
   "Douglas Adams", some "The Hitchhiker's Guide to the Galaxy", some 1979, ["humor", "life", "wisdom", "famous"]⟩,
  ⟨"Time is an illusion. Lunchtime doubly so.",
   "Douglas Adams", some "The Hitchhiker's Guide to the Galaxy", some 1979, ["philosophy", "humor", "time", "absurdism"]⟩,
  ⟨"In the beginning the Universe was created. This has made a lot of people very angry and been widely regarded as a bad move.",
   "Douglas Adams", some "The Restaurant at the End of the Universe", some 1980, ["philosophy", "humor", "existence", "satire"]⟩,
  ⟨"I may not have gone where I intended to go, but I think I have ended up where I needed to be.",
   "Douglas Adams", some "The Long Dark Tea-Time of the Soul", some 1988, ["life", "wisdom", "philosophy", "journey"]⟩,
  ⟨"A learning experience is one of those things that says, 'You know that thing you just did? Don't do that.'",
   "Douglas Adams", some "The Salmon of Doubt", some 2002, ["wisdom", "humor", "life", "learning"]⟩,
  ⟨"I love deadlines. I love the whooshing noise they make as they go by.",
   "Douglas Adams", some "The Salmon of Doubt", some 2002, ["humor", "life", "work", "procrastination"]⟩,
  ⟨"The fact that we live at the bottom of a deep gravity well, on the surface of a gas covered planet going around a nuclear fireball 90 million miles away and think this to be normal is obviously some indication of how skewed our perspective tends to be.",
   "Douglas Adams", some "The Salmon of Doubt", some 2002, ["philosophy", "science", "perspective", "existence"]⟩,
  ⟨"For instance, on the planet Earth, man had always assumed that he was more intelligent than dolphins because he had achieved so much—the wheel, New York, wars and so on—whilst all the dolphins had ever done was muck about in the water having a good time. But conversely, the dolphins had always believed that they were far more intelligent than man—for precisely the same reasons.",
   "Douglas Adams", some "The Hitchhiker's Guide to the Galaxy", some 1979, ["philosophy", "humor", "intelligence", "perspective", "satire"]⟩,
  ⟨"Let's think the unthinkable, let's do the undoable. Let us prepare to grapple with the ineffable itself, and see if we may not eff it after all.",
   "Douglas Adams", some "Dirk Gently's Holistic Detective Agency", some 1987, ["philosophy", "humor", "language", "challenge"]⟩,
  ⟨"There is a theory which states that if ever anyone discovers exactly what the Universe is for and why it is here, it will instantly disappear and be replaced by something even more bizarre and inexplicable. There is another theory which states that this has already happened.",
   "Douglas Adams", some "The Restaurant at the End of the Universe", some 1980, ["philosophy", "humor", "existence", "mystery", "absurdism"]⟩,
  ⟨"We demand rigidly defined areas of doubt and uncertainty!",
   "Douglas Adams", some "The Hitchhiker's Guide to the Galaxy", some 1979, ["humor", "philosophy", "certainty", "absurdism"]⟩,
  ⟨"It is a mistake to think you can solve any major problems just with potatoes.",
   "Douglas Adams", some "Life, the Universe and Everything", some 1982, ["humor", "wisdom", "absurdism"]⟩,
  ⟨"Anyone who is capable of getting themselves made President should on no account be allowed to do the job.",
   "Douglas Adams", some "The Restaurant at the End of the Universe", some 1980, ["politics", "humor", "satire", "wisdom"]⟩,
  ⟨"Nothing travels faster than the speed of light, with the possible exception of bad news, which obeys its own special laws.",
   "Douglas Adams", some "Mostly Harmless", some 1992, ["humor", "science", "absurdism"]⟩,
  ⟨"The ships hung in the sky in much the same way that bricks don't.",
   "Douglas Adams", some "The Hitchhiker's Guide to the Galaxy", some 1979, ["humor", "science-fiction", "imagery", "absurdism"]⟩,
  ⟨"If there's anything more important than my ego around, I want it caught and shot now.",
   "Douglas Adams", some "The Hitchhiker's Guide to the Galaxy", some 1979, ["humor", "ego", "satire", "character"]⟩,
  ⟨"Human beings, who are almost unique in having the ability to learn from the experience of others, are also remarkable for their apparent disinclination to do so.",
   "Douglas Adams", some "Last Chance to See", some 1990, ["wisdom", "philosophy", "human-nature", "learning"]⟩,
  ⟨"I'd far rather be happy than right any day.",
   "Douglas Adams", some "The Hitchhiker's Guide to the Galaxy", some 1979, ["wisdom", "life", "happiness", "philosophy"]⟩,
  ⟨"The mere thought hadn't even begun to speculate about the merest possibility of crossing my mind.",
   "Douglas Adams", some "The Hitchhiker's Guide to the Galaxy", some 1979, ["humor", "language", "absurdism"]⟩
]

/-- `seed_database(db_path, force=False)` of `seed_data.py`. -/
def seed_database (db : DB) (force : Bool) : (Nat × Nat) × DB :=
  if ¬ force ∧ check_if_seeded db then
    ((0, (get_all_quotes db).length), db)
  else
    let r := seedLoop SEED_QUOTES db 0
    ((r.1, (get_all_quotes r.2).length), r.2)

/-- Well-formedness of the database value: primary-key and foreign-key
invariants that SQLite maintains for the schema of `schema.py`, together
with the AUTOINCREMENT bounds. -/
def DB.WF (db : DB) : Prop :=
  (∀ q ∈ db.quotes, q.id < db.nextQuoteId) ∧
  (∀ t ∈ db.tags, t.id < db.nextTagId) ∧
  (db.quotes.map QuoteRow.id).Nodup ∧
  (db.tags.map TagRow.id).Nodup ∧
  (db.tags.map TagRow.name).Nodup ∧
  db.quote_tags.Nodup ∧
  (∀ p ∈ db.quote_tags, ∃ q ∈ db.quotes, q.id = p.1) ∧
  (∀ p ∈ db.quote_tags, ∃ t ∈ db.tags, t.id = p.2)

instance (db : DB) : Decidable db.WF := by
  unfold DB.WF; infer_instance

/-- The quote `qid` carries the tag named `n`: some tag row has that name
and is associated with the quote. -/
def carriesName (db : DB) (qid : Nat) (n : String) : Prop :=
  ∃ t ∈ db.tags, t.name = n ∧ (qid, t.id) ∈ db.quote_tags

instance (db : DB) (qid : Nat) (n : String) : Decidable (carriesName db qid n) := by
  unfold carriesName; infer_instance


/-! ### Helper lemmas about the sorting and string functions -/

theorem mem_insertStr (s x : String) (l : List String) :
    x ∈ insertStr s l ↔ x = s ∨ x ∈ l := by
  induction l with
  | nil => simp [insertStr]
  | cons t r ih =>
    simp only [insertStr]
    split
    · simp [List.mem_cons]
    · simp only [List.mem_cons, ih]
      tauto

theorem mem_sortStrings (x : String) (l : List String) :
    x ∈ sortStrings l ↔ x ∈ l := by
  induction l with
  | nil => simp [sortStrings]
  | cons s r ih => simp [sortStrings, mem_insertStr, ih]

theorem length_insertStr (s : String) (l : List String) :
    (insertStr s l).length = l.length + 1 := by
  induction l with
  | nil => rfl
  | cons t r ih =>
    simp only [insertStr]
    split
    · simp
    · simp [ih]

theorem length_sortStrings (l : List String) :
    (sortStrings l).length = l.length := by
  induction l with
  | nil => rfl
  | cons s r ih => simp [sortStrings, length_insertStr, ih]

theorem mem_insertRowDesc (q x : QuoteRow) (l : List QuoteRow) :
    x ∈ insertRowDesc q l ↔ x = q ∨ x ∈ l := by
  induction l with
  | nil => simp [insertRowDesc]
  | cons r rest ih =>
    simp only [insertRowDesc]
    split
    · simp [List.mem_cons]
    · simp only [List.mem_cons, ih]
      tauto

theorem mem_sortRowsDesc (x : QuoteRow) (l : List QuoteRow) :
    x ∈ sortRowsDesc l ↔ x ∈ l := by
  induction l with
  | nil => simp [sortRowsDesc]
  | cons q rest ih => simp [sortRowsDesc, mem_insertRowDesc, ih]

theorem length_insertRowDesc (q : QuoteRow) (l : List QuoteRow) :
    (insertRowDesc q l).length = l.length + 1 := by
  induction l with
  | nil => rfl
  | cons r rest ih =>
    simp only [insertRowDesc]
    split
    · simp
    · simp [ih]

theorem length_sortRowsDesc (l : List QuoteRow) :
    (sortRowsDesc l).length = l.length := by
  induction l with
  | nil => rfl
  | cons q rest ih => simp [sortRowsDesc, length_insertRowDesc, ih]

theorem mem_insertTagCount (p x : String × Nat) (l : List (String × Nat)) :
    x ∈ insertTagCount p l ↔ x = p ∨ x ∈ l := by
  induction l with
  | nil => simp [insertTagCount]
  | cons q rest ih =>
    simp only [insertTagCount]
    split
    · simp [List.mem_cons]
    · simp only [List.mem_cons, ih]
      tauto

theorem mem_sortTagCounts (x : String × Nat) (l : List (String × Nat)) :
    x ∈ sortTagCounts l ↔ x ∈ l := by
  induction l with
  | nil => simp [sortTagCounts]
  | cons p rest ih => simp [sortTagCounts, mem_insertTagCount, ih]

theorem strip_of_eq_empty {s : String} (h : s = "") : strip s = "" := by
  subst h; rfl

theorem survivingTags_nil : survivingTags [] = [] := rfl

theorem survivingTags_cons_pos {name : String} (rest : List String)
    (h : name ≠ "" ∧ strip name ≠ "") :
    survivingTags (name :: rest) = strip name :: survivingTags rest := by
  simp [survivingTags, List.filter_cons, h]

theorem survivingTags_cons_neg {name : String} (rest : List String)
    (h : ¬ (name ≠ "" ∧ strip name ≠ "")) :
    survivingTags (name :: rest) = survivingTags rest := by
  simp only [survivingTags, List.filter_cons]
  rw [if_neg (by simpa using h)]

/-! ### Well-formedness projections -/

theorem DB.WF.quote_lt {db : DB} (h : db.WF) :
    ∀ q ∈ db.quotes, q.id < db.nextQuoteId := h.1

theorem DB.WF.tag_lt {db : DB} (h : db.WF) :
    ∀ t ∈ db.tags, t.id < db.nextTagId := h.2.1

theorem DB.WF.quoteIds {db : DB} (h : db.WF) :
    (db.quotes.map QuoteRow.id).Nodup := h.2.2.1

theorem DB.WF.tagIds {db : DB} (h : db.WF) :
    (db.tags.map TagRow.id).Nodup := h.2.2.2.1

theorem DB.WF.tagNames {db : DB} (h : db.WF) :
    (db.tags.map TagRow.name).Nodup := h.2.2.2.2.1

theorem DB.WF.qtNodup {db : DB} (h : db.WF) :
    db.quote_tags.Nodup := h.2.2.2.2.2.1

theorem DB.WF.qtQuote {db : DB} (h : db.WF) :
    ∀ p ∈ db.quote_tags, ∃ q ∈ db.quotes, q.id = p.1 := h.2.2.2.2.2.2.1

theorem DB.WF.qtTag {db : DB} (h : db.WF) :
    ∀ p ∈ db.quote_tags, ∃ t ∈ db.tags, t.id = p.2 := h.2.2.2.2.2.2.2

/-! ### Lemmas about `getOrCreateTag` -/

theorem getOrCreateTag_quotes (db : DB) (n : String) :
    (getOrCreateTag db n).2.quotes = db.quotes := by
  unfold getOrCreateTag
  cases db.tags.find? (fun t => t.name == n) <;> rfl

theorem getOrCreateTag_quote_tags (db : DB) (n : String) :
    (getOrCreateTag db n).2.quote_tags = db.quote_tags := by
  unfold getOrCreateTag
  cases db.tags.find? (fun t => t.name == n) <;> rfl

theorem getOrCreateTag_nextQuoteId (db : DB) (n : String) :
    (getOrCreateTag db n).2.nextQuoteId = db.nextQuoteId := by
  unfold getOrCreateTag
  cases db.tags.find? (fun t => t.name == n) <;> rfl

theorem getOrCreateTag_clock (db : DB) (n : String) :
    (getOrCreateTag db n).2.clock = db.clock := by
  unfold getOrCreateTag
  cases db.tags.find? (fun t => t.name == n) <;> rfl

theorem getOrCreateTag_tags_ext (db : DB) (n : String) :
    ∃ ext, (getOrCreateTag db n).2.tags = db.tags ++ ext := by
  unfold getOrCreateTag
  cases db.tags.find? (fun t => t.name == n)
  · exact ⟨[⟨db.nextTagId, n⟩], rfl⟩
  · exact ⟨[], by simp⟩

theorem getOrCreateTag_mem (db : DB) (n : String) :
    ∃ t ∈ (getOrCreateTag db n).2.tags,
      t.id = (getOrCreateTag db n).1 ∧ t.name = n := by
  unfold getOrCreateTag
  cases h : db.tags.find? (fun t => t.name == n) with
  | some t =>
    refine ⟨t, List.mem_of_find?_eq_some h, rfl, ?_⟩
    have := List.find?_some h
    simpa using this
  | none => exact ⟨⟨db.nextTagId, n⟩, by simp, rfl, rfl⟩

theorem getOrCreateTag_wf {db : DB} (n : String) (hwf : db.WF) :
    (getOrCreateTag db n).2.WF := by
  unfold getOrCreateTag
  cases h : db.tags.find? (fun t => t.name == n) with
  | some t => exact hwf
  | none =>
    obtain ⟨h1, h2, h3, h4, h5, h6, h7, h8⟩ := hwf
    have hnone : ∀ t ∈ db.tags, t.name ≠ n := by
      intro t ht
      have := List.find?_eq_none.mp h t ht
      simpa using this
    refine ⟨h1, ?_, h3, ?_, ?_, h6, h7, ?_⟩
    · intro t ht
      rcases List.mem_append.mp ht with ht' | ht'
      · exact Nat.lt_succ_of_lt (h2 t ht')
      · simp at ht'
        subst ht'
        exact Nat.lt_succ_self _
    · rw [List.map_append, List.nodup_append]
      refine ⟨h4, by simp, ?_⟩
      intro i hi hmem
      simp at hmem
      rcases List.mem_map.mp hi with ⟨t, ht, rfl⟩
      exact absurd hmem (Nat.ne_of_lt (h2 t ht))
    · rw [List.map_append, List.nodup_append]
      refine ⟨h5, by simp, ?_⟩
      intro m hm hmem
      simp at hmem
      rcases List.mem_map.mp hm with ⟨t, ht, rfl⟩
      exact absurd hmem (hnone t ht)
    · intro p hp
      rcases h8 p hp with ⟨t, ht, hid⟩
      exact ⟨t, List.mem_append_left _ ht, hid⟩

theorem getOrCreateTag_pair_iff {db : DB} (n : String) (qid : Nat) (hwf : db.WF) :
    ((qid, (getOrCreateTag db n).1) ∈ db.quote_tags) ↔ carriesName db qid n := by
  cases h : db.tags.find? (fun t => t.name == n) with
  | some t =>
    simp only [getOrCreateTag, h]
    have htmem := List.mem_of_find?_eq_some h
    have htname : t.name = n := by simpa using List.find?_some h
    constructor
    · intro hp
      exact ⟨t, htmem, htname, hp⟩
    · rintro ⟨t', ht', hname, hp⟩
      have ht'id : t' = t :=
        List.inj_on_of_nodup_map hwf.tagNames ht' htmem (by rw [hname, htname])
      subst ht'id
      exact hp
  | none =>
    simp only [getOrCreateTag, h]
    have hnone : ∀ t ∈ db.tags, t.name ≠ n := by
      intro t ht
      have := List.find?_eq_none.mp h t ht
      simpa using this
    constructor
    · intro hp
      rcases hwf.qtTag _ hp with ⟨t, ht, hid⟩
      have hid' : t.id = db.nextTagId := hid
      exact absurd hid' (Nat.ne_of_lt (hwf.tag_lt t ht))
    · rintro ⟨t, ht, hname, hp⟩
      exact absurd hname (hnone t ht)

theorem carriesName_getOrCreateTag {db : DB} (n : String) (qid : Nat) (m : String)
    (hwf : db.WF) :
    carriesName (getOrCreateTag db n).2 qid m ↔ carriesName db qid m := by
  cases h : db.tags.find? (fun t => t.name == n) with
  | some t => simp only [getOrCreateTag, h]
  | none =>
    simp only [getOrCreateTag, h]
    unfold carriesName
    constructor
    · rintro ⟨t, ht, hname, hp⟩
      rcases List.mem_append.mp ht with ht' | ht'
      · exact ⟨t, ht', hname, hp⟩
      · simp at ht'
        subst ht'
        rcases hwf.qtTag _ hp with ⟨t', ht', hid⟩
        have hid' : t'.id = db.nextTagId := hid
        exact absurd hid' (Nat.ne_of_lt (hwf.tag_lt t' ht'))
    · rintro ⟨t, ht, hname, hp⟩
      exact ⟨t, List.mem_append_left _ ht, hname, hp⟩

theorem carriesName_step {db db₁ : DB} {n : String} {tid qid : Nat}
    (hwf : db.WF) (h : getOrCreateTag db n = (tid, db₁)) (m : String) :
    carriesName { db₁ with quote_tags := db₁.quote_tags ++ [(qid, tid)] } qid m ↔
      m = n ∨ carriesName db qid m := by
  have hqt : db₁.quote_tags = db.quote_tags := by
    have := getOrCreateTag_quote_tags db n
    rw [h] at this
    exact this
  have hwf₁ : db₁.WF := by
    have := getOrCreateTag_wf n hwf
    rwa [h] at this
  obtain ⟨tn, htn, htnid, htnname⟩ := getOrCreateTag_mem db n
  rw [h] at htn htnid
  constructor
  · rintro ⟨t, ht, hname, hp⟩
    simp only [List.mem_append, List.mem_singleton] at hp
    rcases hp with hp | hp
    · right
      have : carriesName db₁ qid m := ⟨t, ht, hname, hp⟩
      have hiff := carriesName_getOrCreateTag n qid m hwf
      rw [h] at hiff
      exact hiff.mp this
    · left
      have hid : t.id = tid := by simpa using congrArg Prod.snd hp
      have : t = tn :=
        List.inj_on_of_nodup_map hwf₁.tagIds ht htn (by rw [hid, htnid])
      rw [← hname, this, htnname]
  · rintro (rfl | hm)
    · exact ⟨tn, htn, htnname, by simp [htnid]⟩
    · have hiff := carriesName_getOrCreateTag n qid m hwf
      rw [h] at hiff
      rcases hiff.mpr hm with ⟨t, ht, hname, hp⟩
      exact ⟨t, ht, hname, List.mem_append_left _ hp⟩

theorem step_wf {db db₁ : DB} {n : String} {tid qid : Nat}
    (hwf : db.WF) (h : getOrCreateTag db n = (tid, db₁))
    (hq : ∃ q ∈ db.quotes, q.id = qid)
    (hnc : ¬ carriesName db qid n) :
    ({ db₁ with quote_tags := db₁.quote_tags ++ [(qid, tid)] }).WF := by
  have hqt : db₁.quote_tags = db.quote_tags := by
    have := getOrCreateTag_quote_tags db n
    rw [h] at this
    exact this
  have hquotes : db₁.quotes = db.quotes := by
    have := getOrCreateTag_quotes db n
    rw [h] at this
    exact this
  have hwf₁ : db₁.WF := by
    have := getOrCreateTag_wf n hwf
    rwa [h] at this
  obtain ⟨tn, htn, htnid, htnname⟩ := getOrCreateTag_mem db n
  rw [h] at htn htnid
  obtain ⟨h1, h2, h3, h4, h5, h6, h7, h8⟩ := hwf₁
  refine ⟨h1, h2, h3, h4, h5, ?_, ?_, ?_⟩
  · rw [List.nodup_append]
    refine ⟨h6, List.nodup_singleton _, ?_⟩
    intro p hp hmem
    simp at hmem
    subst hmem
    have hpair : (qid, tid) ∈ db.quote_tags := by rw [← hqt]; exact hp
    have hiff := getOrCreateTag_pair_iff n qid hwf
    rw [h] at hiff
    exact hnc (hiff.mp hpair)
  · intro p hp
    rcases List.mem_append.mp hp with hp' | hp'
    · exact h7 p hp'
    · simp at hp'
      subst hp'
      rcases hq with ⟨q, hqmem, hqid⟩
      exact ⟨q, by rw [hquotes]; exact hqmem, hqid⟩
  · intro p hp
    rcases List.mem_append.mp hp with hp' | hp'
    · exact h8 p hp'
    · simp at hp'
      subst hp'
      exact ⟨tn, htn, htnid⟩

/-! ### The tag-insertion loop -/

theorem addTagsLoop_cons_pos {name : String} (qid : Nat) (rest : List String)
    (db : DB) (acc : List String) (h : name ≠ "" ∧ strip name ≠ "") :
    addTagsLoop qid (name :: rest) db acc =
      (if (qid, (getOrCreateTag db (strip name)).1) ∈
          (getOrCreateTag db (strip name)).2.quote_tags then .error .integrity
       else addTagsLoop qid rest
         { (getOrCreateTag db (strip name)).2 with
           quote_tags := (getOrCreateTag db (strip name)).2.quote_tags ++
             [(qid, (getOrCreateTag db (strip name)).1)] }
         (acc ++ [strip name])) := by
  simp only [addTagsLoop]
  rw [if_pos h]

theorem addTagsLoop_cons_neg {name : String} (qid : Nat) (rest : List String)
    (db : DB) (acc : List String) (h : ¬ (name ≠ "" ∧ strip name ≠ "")) :
    addTagsLoop qid (name :: rest) db acc = addTagsLoop qid rest db acc := by
  simp only [addTagsLoop]
  rw [if_neg h]

theorem addTagsLoop_ok (qid : Nat) (l : List String) :
    ∀ (db : DB) (acc : List String),
      db.WF →
      (∃ q ∈ db.quotes, q.id = qid) →
      (survivingTags l).Nodup →
      (∀ n ∈ survivingTags l, ¬ carriesName db qid n) →
      ∃ db',
        addTagsLoop qid l db acc = .ok (acc ++ survivingTags l, db') ∧
        db'.WF ∧
        db'.quotes = db.quotes ∧
        db'.nextQuoteId = db.nextQuoteId ∧
        db'.clock = db.clock ∧
        (∃ ext, db'.tags = db.tags ++ ext) ∧
        (∃ np, db'.quote_tags = db.quote_tags ++ np ∧ ∀ p ∈ np, p.1 = qid) ∧
        (∀ m, carriesName db' qid m ↔ m ∈ survivingTags l ∨ carriesName db qid m) := by
  induction l with
  | nil =>
    intro db acc hwf _ _ _
    refine ⟨db, ?_, hwf, rfl, rfl, rfl, ⟨[], by simp⟩, ⟨[], by simp, by simp⟩, ?_⟩
    · simp [addTagsLoop, survivingTags_nil]
    · simp [survivingTags_nil]
  | cons name rest ih =>
    intro db acc hwf hq hnd hnc
    by_cases hcond : name ≠ "" ∧ strip name ≠ ""
    · rw [survivingTags_cons_pos rest hcond] at hnd hnc
      obtain ⟨tid, db₁, hgoc⟩ :
          ∃ tid db₁, getOrCreateTag db (strip name) = (tid, db₁) := ⟨_, _, rfl⟩
      have hqt₁ : db₁.quote_tags = db.quote_tags := by
        have := getOrCreateTag_quote_tags db (strip name)
        rw [hgoc] at this
        exact this
      have hquotes₁ : db₁.quotes = db.quotes := by
        have := getOrCreateTag_quotes db (strip name)
        rw [hgoc] at this
        exact this
      have hnext₁ : db₁.nextQuoteId = db.nextQuoteId := by
        have := getOrCreateTag_nextQuoteId db (strip name)
        rw [hgoc] at this
        exact this
      have hclock₁ : db₁.clock = db.clock := by
        have := getOrCreateTag_clock db (strip name)
        rw [hgoc] at this
        exact this
      have htags₁ : ∃ ext, db₁.tags = db.tags ++ ext := by
        have := getOrCreateTag_tags_ext db (strip name)
        rw [hgoc] at this
        exact this
      have hheadnc : ¬ carriesName db qid (strip name) :=
        hnc _ (List.mem_cons_self _ _)
      have hnotmem : (qid, tid) ∉ db₁.quote_tags := by
        rw [hqt₁]
        have hiff := getOrCreateTag_pair_iff (strip name) qid hwf
        rw [hgoc] at hiff
        intro hmem
        exact hheadnc (hiff.mp hmem)
      have hwf₂ : ({ db₁ with
          quote_tags := db₁.quote_tags ++ [(qid, tid)] } : DB).WF :=
        step_wf hwf hgoc hq hheadnc
      have hq₂ : ∃ q ∈ ({ db₁ with
          quote_tags := db₁.quote_tags ++ [(qid, tid)] } : DB).quotes, q.id = qid := by
        rcases hq with ⟨q, hqm, hqid⟩
        exact ⟨q, by rw [show ({ db₁ with
          quote_tags := db₁.quote_tags ++ [(qid, tid)] } : DB).quotes = db₁.quotes
          from rfl, hquotes₁]; exact hqm, hqid⟩
      have hcar₂ : ∀ m, carriesName { db₁ with
          quote_tags := db₁.quote_tags ++ [(qid, tid)] } qid m ↔
          m = strip name ∨ carriesName db qid m :=
        fun m => carriesName_step hwf hgoc m
      have hnd₂ : (survivingTags rest).Nodup := hnd.of_cons
      have hheadout : strip name ∉ survivingTags rest := (List.nodup_cons.mp hnd).1
      have hnc₂ : ∀ n ∈ survivingTags rest, ¬ carriesName { db₁ with
          quote_tags := db₁.quote_tags ++ [(qid, tid)] } qid n := by
        intro n hn hcar
        rcases (hcar₂ n).mp hcar with heq | hcar'
        · exact hheadout (heq ▸ hn)
        · exact hnc n (List.mem_cons_of_mem _ hn) hcar'
      obtain ⟨db', hrun, hwf', hquotes', hnext', hclock', ⟨ext, hext⟩,
        ⟨np, hnp, hnpq⟩, hcar'⟩ := ih _ (acc ++ [strip name]) hwf₂ hq₂ hnd₂ hnc₂
      refine ⟨db', ?_, hwf', ?_, ?_, ?_, ?_, ?_, ?_⟩
      · rw [addTagsLoop_cons_pos qid rest db acc hcond, hgoc]
        rw [if_neg hnotmem, hrun]
        rw [survivingTags_cons_pos rest hcond]
        simp
      · rw [hquotes']
        exact hquotes₁
      · rw [hnext']
        exact hnext₁
      · rw [hclock']
        exact hclock₁
      · rcases htags₁ with ⟨ext₀, hext₀⟩
        refine ⟨ext₀ ++ ext, ?_⟩
        rw [hext]
        rw [show ({ db₁ with
          quote_tags := db₁.quote_tags ++ [(qid, tid)] } : DB).tags = db₁.tags
          from rfl, hext₀, List.append_assoc]
      · refine ⟨(qid, tid) :: np, ?_, ?_⟩
        · rw [hnp]
          rw [show ({ db₁ with
            quote_tags := db₁.quote_tags ++ [(qid, tid)] } : DB).quote_tags =
            db₁.quote_tags ++ [(qid, tid)] from rfl, hqt₁, List.append_assoc]
          rfl
        · intro p hp
          rcases List.mem_cons.mp hp with rfl | hp'
          · rfl
          · exact hnpq p hp'
      · intro m
        rw [hcar' m, hcar₂ m, survivingTags_cons_pos rest hcond]
        simp only [List.mem_cons]
        tauto
    · rw [survivingTags_cons_neg rest hcond] at hnd hnc ⊢
      rw [addTagsLoop_cons_neg qid rest db acc hcond]
      exact ih db acc hwf hq hnd hnc

theorem addTagsLoop_err (qid : Nat) (l : List String) :
    ∀ (db : DB) (acc : List String),
      db.WF →
      (∃ q ∈ db.quotes, q.id = qid) →
      (¬ (survivingTags l).Nodup ∨ ∃ n ∈ survivingTags l, carriesName db qid n) →
      addTagsLoop qid l db acc = .error .integrity := by
  induction l with
  | nil =>
    intro db acc _ _ hbad
    rcases hbad with hbad | ⟨n, hn, _⟩
    · rw [survivingTags_nil] at hbad
      exact absurd List.nodup_nil hbad
    · rw [survivingTags_nil] at hn
      cases hn
  | cons name rest ih =>
    intro db acc hwf hq hbad
    by_cases hcond : name ≠ "" ∧ strip name ≠ ""
    · rw [survivingTags_cons_pos rest hcond] at hbad
      obtain ⟨tid, db₁, hgoc⟩ :
          ∃ tid db₁, getOrCreateTag db (strip name) = (tid, db₁) := ⟨_, _, rfl⟩
      have hqt₁ : db₁.quote_tags = db.quote_tags := by
        have := getOrCreateTag_quote_tags db (strip name)
        rw [hgoc] at this
        exact this
      have hquotes₁ : db₁.quotes = db.quotes := by
        have := getOrCreateTag_quotes db (strip name)
        rw [hgoc] at this
        exact this
      have hiff := getOrCreateTag_pair_iff (strip name) qid hwf
      rw [hgoc] at hiff
      by_cases hcar : carriesName db qid (strip name)
      · have hmem : (qid, tid) ∈ db₁.quote_tags := by
          rw [hqt₁]
          exact hiff.mpr hcar
        rw [addTagsLoop_cons_pos qid rest db acc hcond, hgoc, if_pos hmem]
      · have hnotmem : (qid, tid) ∉ db₁.quote_tags := by
          rw [hqt₁]
          intro hmem
          exact hcar (hiff.mp hmem)
        rw [addTagsLoop_cons_pos qid rest db acc hcond, hgoc, if_neg hnotmem]
        have hwf₂ : ({ db₁ with
            quote_tags := db₁.quote_tags ++ [(qid, tid)] } : DB).WF :=
          step_wf hwf hgoc hq hcar
        have hq₂ : ∃ q ∈ ({ db₁ with
            quote_tags := db₁.quote_tags ++ [(qid, tid)] } : DB).quotes,
            q.id = qid := by
          rcases hq with ⟨q, hqm, hqid⟩
          exact ⟨q, by rw [show ({ db₁ with
            quote_tags := db₁.quote_tags ++ [(qid, tid)] } : DB).quotes = db₁.quotes
            from rfl, hquotes₁]; exact hqm, hqid⟩
        have hcar₂ : ∀ m, carriesName { db₁ with
            quote_tags := db₁.quote_tags ++ [(qid, tid)] } qid m ↔
            m = strip name ∨ carriesName db qid m :=
          fun m => carriesName_step hwf hgoc m
        apply ih _ (acc ++ [strip name]) hwf₂ hq₂
        rcases hbad with hbad | ⟨n, hn, hcarn⟩
        · have : strip name ∈ survivingTags rest ∨ ¬ (survivingTags rest).Nodup := by
            by_contra hcon
            push_neg at hcon
            exact hbad (List.nodup_cons.mpr ⟨hcon.1, hcon.2⟩)
          rcases this with hmem | hnd
          · exact Or.inr ⟨strip name, hmem, (hcar₂ _).mpr (Or.inl rfl)⟩
          · exact Or.inl hnd
        · rcases List.mem_cons.mp hn with rfl | hn'
          · exact absurd hcarn hcar
          · exact Or.inr ⟨n, hn', (hcar₂ n).mpr (Or.inr hcarn)⟩
    · rw [survivingTags_cons_neg rest hcond] at hbad
      rw [addTagsLoop_cons_neg qid rest db acc hcond]
      exact ih db acc hwf hq hbad

/-! ### Specification of `add_quote` -/

theorem insert_row_wf {db : DB} (hwf : db.WF) (text author : String)
    (source : Option String) (year : Option Int) :
    ({ db with
        quotes := db.quotes ++
          [⟨db.nextQuoteId, text, author, source, year, db.clock⟩],
        nextQuoteId := db.nextQuoteId + 1,
        clock := db.clock + 1 } : DB).WF := by
  obtain ⟨h1, h2, h3, h4, h5, h6, h7, h8⟩ := hwf
  refine ⟨?_, h2, ?_, h4, h5, h6, ?_, h8⟩
  · intro q hq
    rcases List.mem_append.mp hq with hq' | hq'
    · exact Nat.lt_succ_of_lt (h1 q hq')
    · simp at hq'
      subst hq'
      exact Nat.lt_succ_self _
  · rw [List.map_append, List.nodup_append]
    refine ⟨h3, by simp, ?_⟩
    intro i hi hmem
    simp at hmem
    rcases List.mem_map.mp hi with ⟨q, hq, rfl⟩
    exact absurd hmem (Nat.ne_of_lt (h1 q hq))
  · intro p hp
    rcases h7 p hp with ⟨q, hq, hid⟩
    exact ⟨q, List.mem_append_left _ hq, hid⟩

theorem fresh_quote_no_tags {db : DB} (hwf : db.WF) :
    ∀ n, ¬ carriesName db db.nextQuoteId n := by
  rintro n ⟨t, _, _, hp⟩
  rcases hwf.qtQuote _ hp with ⟨q, hq, hid⟩
  exact absurd hid (Nat.ne_of_lt (hwf.quote_lt q hq))

theorem add_quote_ok {db : DB} (text author : String) (source : Option String)
    (year : Option Int) (tags : Option (List String)) (hwf : db.WF)
    (ht : strip text ≠ "") (ha : strip author ≠ "")
    (hnd : (survivingTags (tags.getD [])).Nodup) :
    ∃ db',
      add_quote db text author source year tags =
        .ok (⟨db.nextQuoteId, strip text, strip author, source, year, db.clock,
              survivingTags (tags.getD [])⟩, db') ∧
      db'.WF ∧
      db'.quotes = db.quotes ++
        [⟨db.nextQuoteId, strip text, strip author, source, year, db.clock⟩] ∧
      db'.nextQuoteId = db.nextQuoteId + 1 ∧
      (∀ m, carriesName db' db.nextQuoteId m ↔ m ∈ survivingTags (tags.getD [])) := by
  have ht' : ¬ (text = "" ∨ strip text = "") := by
    rintro (h | h)
    · exact ht (strip_of_eq_empty h)
    · exact ht h
  have ha' : ¬ (author = "" ∨ strip author = "") := by
    rintro (h | h)
    · exact ha (strip_of_eq_empty h)
    · exact ha h
  set row : QuoteRow :=
    ⟨db.nextQuoteId, strip text, strip author, source, year, db.clock⟩ with hrow
  set db₁ : DB := ({ db with
    quotes := db.quotes ++ [row],
    nextQuoteId := db.nextQuoteId + 1, clock := db.clock + 1 } : DB) with hdb₁
  have hwf₁ : db₁.WF := insert_row_wf hwf (strip text) (strip author) source year
  have hq₁ : ∃ q ∈ db₁.quotes, q.id = db.nextQuoteId :=
    ⟨row, by simp [hdb₁], rfl⟩
  have hnc₁ : ∀ n, ¬ carriesName db₁ db.nextQuoteId n := by
    rintro n ⟨t, htm, htn, hp⟩
    have hp' : (db.nextQuoteId, t.id) ∈ db.quote_tags := hp
    rcases hwf.qtQuote _ hp' with ⟨q, hq, hid⟩
    exact absurd hid (Nat.ne_of_lt (hwf.quote_lt q hq))
  obtain ⟨db₂, hrun, hwf₂, hquotes₂, hnext₂, hclock₂, _, _, hcar₂⟩ :=
    addTagsLoop_ok db.nextQuoteId (tags.getD []) db₁ [] hwf₁ hq₁ hnd
      (fun n _ => hnc₁ n)
  refine ⟨db₂, ?_, hwf₂, ?_, ?_, ?_⟩
  · simp only [add_quote]
    rw [if_neg ht', if_neg ha']
    rw [show addTagsLoop db.nextQuoteId (tags.getD [])
      ({ db with
        quotes := db.quotes ++
          [⟨db.nextQuoteId, strip text, strip author, source, year, db.clock⟩],
        nextQuoteId := db.nextQuoteId + 1, clock := db.clock + 1 } : DB) [] =
      .ok ([] ++ survivingTags (tags.getD []), db₂) from hrun]
    have hfind : db₂.quotes.find? (fun r => r.id == db.nextQuoteId) = some row := by
      rw [hquotes₂, hdb₁]
      rw [show ({ db with
        quotes := db.quotes ++ [row],
        nextQuoteId := db.nextQuoteId + 1, clock := db.clock + 1 } : DB).quotes =
        db.quotes ++ [row] from rfl]
      rw [List.find?_append]
      have hnone : db.quotes.find? (fun r => r.id == db.nextQuoteId) = none := by
        rw [List.find?_eq_none]
        intro q hq
        simp only [beq_iff_eq]
        exact Nat.ne_of_lt (hwf.quote_lt q hq)
      rw [hnone]
      simp [List.find?, hrow]
    simp only [hfind]
    simp [rowToQuote, hrow]
  · rw [hquotes₂, hdb₁]
  · rw [hnext₂, hdb₁]
  · intro m
    rw [hcar₂ m]
    constructor
    · rintro (hm | hm)
      · exact hm
      · exact absurd hm (hnc₁ m)
    · exact Or.inl

theorem add_quote_dup {db : DB} (text author : String) (source : Option String)
    (year : Option Int) (tags : Option (List String)) (hwf : db.WF)
    (ht : strip text ≠ "") (ha : strip author ≠ "")
    (hdup : ¬ (survivingTags (tags.getD [])).Nodup) :
    add_quote db text author source year tags = .error .integrity := by
  have ht' : ¬ (text = "" ∨ strip text = "") := by
    rintro (h | h)
    · exact ht (strip_of_eq_empty h)
    · exact ht h
  have ha' : ¬ (author = "" ∨ strip author = "") := by
    rintro (h | h)
    · exact ha (strip_of_eq_empty h)
    · exact ha h
  set row : QuoteRow :=
    ⟨db.nextQuoteId, strip text, strip author, source, year, db.clock⟩ with hrow
  set db₁ : DB := ({ db with
    quotes := db.quotes ++ [row],
    nextQuoteId := db.nextQuoteId + 1, clock := db.clock + 1 } : DB) with hdb₁
  have hwf₁ : db₁.WF := insert_row_wf hwf (strip text) (strip author) source year
  have hq₁ : ∃ q ∈ db₁.quotes, q.id = db.nextQuoteId :=
    ⟨row, by simp [hdb₁], rfl⟩
  have hrun := addTagsLoop_err db.nextQuoteId (tags.getD []) db₁ [] hwf₁ hq₁
    (Or.inl hdup)
  simp only [add_quote]
  rw [if_neg ht', if_neg ha']
  rw [show addTagsLoop db.nextQuoteId (tags.getD [])
    ({ db with
      quotes := db.quotes ++
        [⟨db.nextQuoteId, strip text, strip author, source, year, db.clock⟩],
      nextQuoteId := db.nextQuoteId + 1, clock := db.clock + 1 } : DB) [] =
    .error .integrity from hrun]

/-! ### Concrete databases used as witnesses -/

/-- The freshly initialized empty database. -/
def emptyDB : DB := ⟨[], [], [], 1, 1, 0⟩

/-- A database holding one quote (id 1, "t" by "a") tagged "x". -/
def dbX : DB := ⟨[⟨1, "t", "a", none, none, 0⟩], [⟨1, "x"⟩], [(1, 1)], 2, 2, 1⟩

/-- The `update_quote` validation passes for this optional text/author
field: absent, or non-empty with non-empty strip. -/
def validField : Option String → Prop
  | none => True
  | some s => s ≠ "" ∧ strip s ≠ ""

instance (o : Option String) : Decidable (validField o) := by
  cases o with
  | none => exact isTrue trivial
  | some s => exact inferInstanceAs (Decidable (_ ∧ _))

theorem validField_not_invalid {o : Option String} (h : validField o) :
    ¬ (o.isSome ∧ (o.getD "" = "" ∨ strip (o.getD "") = "")) := by
  cases o with
  | none => rintro ⟨hs, _⟩; cases hs
  | some s =>
    rintro ⟨_, hbad⟩
    rcases hbad with hbad | hbad
    · exact h.1 hbad
    · exact h.2 hbad

/-! ### Claim theorems -/

/-- **C5.** For every quote id not present in the store and every field
combination with valid (non-empty when present) text and author,
`update_quote` returns false and leaves every quote row, tag row and
association unchanged (the returned database is the input database). -/
theorem C5_update_missing_id (db : DB) (qid : Nat) (f : UpdateFields)
    (htext : validField f.text) (hauthor : validField f.author)
    (habs : ∀ q ∈ db.quotes, q.id ≠ qid) :
    update_quote db qid f = .ok (false, db) := by
  have h3 : ¬ db.quotes.any (fun r => r.id == qid) = true := by
    rw [List.any_eq_true]
    rintro ⟨q, hq, hid⟩
    exact habs q hq (by simpa using hid)
  simp only [update_quote]
  rw [if_neg (validField_not_invalid htext),
    if_neg (validField_not_invalid hauthor), if_pos h3]

/-- Witness for C5: updating the absent id 7 of `dbX` with text "z"
returns false and the unchanged store. -/
theorem C5_update_missing_id_witness :
    update_quote dbX 7 { text := some "z" } = .ok (false, dbX) :=
  C5_update_missing_id dbX 7 { text := some "z" } (by decide) (by decide)
    (by decide)

/-- **C10.** `update_quote` validates text/author before checking that the
quote id exists: for every store and every absent id, supplying an
empty-after-strip text or author raises `InvalidInputError` instead of
returning the not-found value false. -/
theorem C10_validation_precedes_existence (db : DB) (qid : Nat)
    (f : UpdateFields) (habs : ∀ q ∈ db.quotes, q.id ≠ qid)
    (hbad : (∃ t, f.text = some t ∧ strip t = "") ∨
            (∃ a, f.author = some a ∧ strip a = "")) :
    ∃ msg, update_quote db qid f = .error (.invalidInput msg) := by
  by_cases h1 : f.text.isSome ∧ (f.text.getD "" = "" ∨ strip (f.text.getD "") = "")
  · refine ⟨"Quote text cannot be empty", ?_⟩
    simp only [update_quote]
    rw [if_pos h1]
  · have h2 : f.author.isSome ∧
        (f.author.getD "" = "" ∨ strip (f.author.getD "") = "") := by
      rcases hbad with ⟨t, hft, hstrip⟩ | ⟨a, hfa, hstrip⟩
      · exact absurd ⟨by rw [hft]; rfl, Or.inr (by rw [hft]; exact hstrip)⟩ h1
      · exact ⟨by rw [hfa]; rfl, Or.inr (by rw [hfa]; exact hstrip)⟩
    refine ⟨"Author name cannot be empty", ?_⟩
    simp only [update_quote]
    rw [if_neg h1, if_pos h2]

/-- Witness for C10: updating the absent id 7 of `dbX` with the
whitespace-only text " " raises `InvalidInputError`, not false. -/
theorem C10_validation_precedes_existence_witness :
    ∃ msg, update_quote dbX 7 { text := some " " } =
      .error (.invalidInput msg) :=
  C10_validation_precedes_existence dbX 7 { text := some " " } (by decide)
    (Or.inl ⟨" ", rfl, by decide⟩)

/-- **C9.** `search_quotes` with no filters (each of query/author/tags absent
or given as the falsy empty string / empty list) returns exactly
`get_all_quotes`: same quotes, same most-recent-first order. -/
theorem C9_search_no_filters (db : DB) (hwf : db.WF)
    (query author : Option String) (tags : Option (List String))
    (hq : query = none ∨ query = some "")
    (ha : author = none ∨ author = some "")
    (ht : tags = none ∨ tags = some []) :
    search_quotes db query author tags = get_all_quotes db := by
  have hq' : strTruthy query = false := by rcases hq with rfl | rfl <;> rfl
  have ha' : strTruthy author = false := by rcases ha with rfl | rfl <;> rfl
  have ht' : listTruthy tags = false := by rcases ht with rfl | rfl <;> rfl
  have hnodup : db.quotes.Nodup := List.Nodup.of_map QuoteRow.id hwf.quoteIds
  simp only [search_quotes, get_all_quotes, hq', ha', ht', Bool.not_false,
    Bool.true_or, Bool.true_and, Bool.and_self]
  rw [List.filter_eq_self.mpr (fun a _ => rfl), List.dedup_eq_self.mpr hnodup]

/-- Witness for C9 at `dbX`. -/
theorem C9_search_no_filters_witness :
    search_quotes dbX none (some "") (some []) = get_all_quotes dbX :=
  C9_search_no_filters dbX (by decide) none (some "") (some [])
    (Or.inl rfl) (Or.inr rfl) (Or.inr rfl)

/-- **C6.** `delete_quote` on an existing id returns true, removes the quote
row and all of that quote's associations, and leaves every tag row intact;
a tag previously associated only with that quote still appears in
`list_all_tags` afterwards with count 0. On an absent id it returns false
and changes nothing. -/
theorem C6_delete_quote (db : DB) (qid : Nat) (hwf : db.WF) :
    (db.quotes.any (fun r => r.id == qid) = true →
      delete_quote db qid =
        (true, { db with
          quotes := db.quotes.filter (fun r => !(r.id == qid)),
          quote_tags := db.quote_tags.filter (fun p => !(p.1 == qid)) }) ∧
      (delete_quote db qid).2.tags = db.tags ∧
      (∀ t ∈ db.tags, (∀ p ∈ db.quote_tags, p.2 = t.id → p.1 = qid) →
        (t.name, 0) ∈ list_all_tags (delete_quote db qid).2)) ∧
    (db.quotes.any (fun r => r.id == qid) = false →
      delete_quote db qid = (false, db)) := by
  constructor
  · intro hex
    refine ⟨?_, rfl, ?_⟩
    · simp only [delete_quote, hex]
    · intro t ht honly
      have hcount : (((db.quote_tags.filter (fun p => !(p.1 == qid))).filter
          (fun p => p.2 == t.id)).length) = 0 := by
        rw [List.length_eq_zero, List.eq_nil_iff_forall_not_mem]
        intro p hp
        rw [List.mem_filter] at hp
        rcases hp with ⟨hp₁, hp₂⟩
        rw [List.mem_filter] at hp₁
        rcases hp₁ with ⟨hpm, hpne⟩
        have h₂ : p.2 = t.id := by simpa using hp₂
        have h₁ : p.1 ≠ qid := by simpa using hpne
        exact h₁ (honly p hpm h₂)
      apply (mem_sortTagCounts _ _).mpr
      apply List.mem_map.mpr
      refine ⟨t, ht, ?_⟩
      show (t.name, ((db.quote_tags.filter (fun p => !(p.1 == qid))).filter
        (fun p => p.2 == t.id)).length) = (t.name, 0)
      rw [hcount]
  · intro habs
    have hq : ∀ r ∈ db.quotes, r.id ≠ qid := by
      intro r hr
      have := List.any_eq_false.mp habs r hr
      simpa using this
    have h1 : db.quotes.filter (fun r => !(r.id == qid)) = db.quotes :=
      List.filter_eq_self.mpr (fun r hr => by simpa using hq r hr)
    have h2 : db.quote_tags.filter (fun p => !(p.1 == qid)) = db.quote_tags := by
      apply List.filter_eq_self.mpr
      intro p hp
      rcases hwf.qtQuote p hp with ⟨q, hqm, hid⟩
      simp only [Bool.not_eq_eq_eq_not, Bool.not_true, beq_eq_false_iff_ne]
      rw [← hid]
      exact hq q hqm
    simp only [delete_quote, habs, h1, h2]

/-- Witness for C6: deleting quote 1 of `dbX` keeps the tag row "x" with
count 0, and deleting the absent id 7 changes nothing. -/
theorem C6_delete_quote_witness :
    ("x", 0) ∈ list_all_tags (delete_quote dbX 1).2 ∧
    delete_quote dbX 7 = (false, dbX) :=
  ⟨((C6_delete_quote dbX 1 (by decide)).1 (by decide)).2.2 ⟨1, "x"⟩ (by decide)
      (by decide),
   (C6_delete_quote dbX 7 (by decide)).2 (by decide)⟩

/-- **C2 counterexample.** `add_quote` on the empty store with the duplicate
tags list `["x", "x"]` does not succeed: the second association insert
violates the `quote_tags` primary key and the call raises
`sqlite3.IntegrityError` (the claim says the duplicates collapse and no
error is raised). -/
theorem C2_counterexample :
    add_quote emptyDB "t" "a" none none (some ["x", "x"]) =
      .error .integrity := rfl

/-- **C2 (amended).** For every `add_quote` call whose tags list contains the
same surviving (trimmed non-empty) name more than once, the duplicate does
not collapse: the second `INSERT INTO quote_tags` violates the composite
primary key, the call raises IntegrityError, and — the transaction never
being committed — nothing is persisted. -/
theorem C2_duplicate_tags_error (db : DB) (text author : String)
    (source : Option String) (year : Option Int) (tags : List String)
    (hwf : db.WF) (ht : strip text ≠ "") (ha : strip author ≠ "")
    (hdup : ¬ (survivingTags tags).Nodup) :
    add_quote db text author source year (some tags) = .error .integrity :=
  add_quote_dup text author source year (some tags) hwf ht ha hdup

/-- Witness for C2's amended theorem. -/
theorem C2_duplicate_tags_error_witness :
    add_quote emptyDB "t" "a" none none (some ["x", " x "]) =
      .error .integrity :=
  C2_duplicate_tags_error emptyDB "t" "a" none none ["x", " x "] (by decide)
    (by decide) (by decide) (by decide)

/-- **C3 counterexample.** `add_quote` with tags supplied as `["b", "a"]`
returns the quote with `tags = ["b", "a"]` — the supplied order, not the
lexicographically sorted `["a", "b"]` that the claim requires (and that a
subsequent `get_quote_by_id` does return). -/
theorem C3_counterexample :
    (add_quote emptyDB "t" "a" none none (some ["b", "a"])).toOption.map
        (fun r => r.1.tags) = some ["b", "a"] ∧
    (["b", "a"] : List String) ≠ ["a", "b"] ∧
    (add_quote emptyDB "t" "a" none none (some ["b", "a"])).toOption.map
        (fun r => (get_quote_by_id r.2 1).map Quote.tags) =
      some (some ["a", "b"]) :=
  ⟨rfl, by decide, rfl⟩

/-- **C3 (amended).** For every successful `add_quote` call (valid text and
author, duplicate-free surviving tag names), the `tags` field of the
returned Quote is the trimmed surviving names in the order they were
supplied — not sorted. -/
theorem C3_add_returns_supplied_order (db : DB) (text author : String)
    (source : Option String) (year : Option Int) (tags : Option (List String))
    (hwf : db.WF) (ht : strip text ≠ "") (ha : strip author ≠ "")
    (hnd : (survivingTags (tags.getD [])).Nodup) :
    ∃ db', add_quote db text author source year tags =
      .ok (⟨db.nextQuoteId, strip text, strip author, source, year, db.clock,
            survivingTags (tags.getD [])⟩, db') := by
  obtain ⟨db', h, _⟩ := add_quote_ok text author source year tags hwf ht ha hnd
  exact ⟨db', h⟩

/-- Witness for C3's amended theorem. -/
theorem C3_add_returns_supplied_order_witness :
    ∃ db', add_quote emptyDB "t" "a" none none (some ["b", "a"]) =
      .ok (⟨emptyDB.nextQuoteId, strip "t", strip "a", none, none,
            emptyDB.clock, survivingTags ["b", "a"]⟩, db') :=
  C3_add_returns_supplied_order emptyDB "t" "a" none none (some ["b", "a"])
    (by decide) (by decide) (by decide) (by decide)

/-! ### Lemmas about `update_quote` -/

theorem applyUpdate_id (f : UpdateFields) (qid : Nat) (r : QuoteRow) :
    (applyUpdate f qid r).id = r.id := by
  unfold applyUpdate
  split <;> rfl

theorem map_applyUpdate_wf {db : DB} (hwf : db.WF) (f : UpdateFields)
    (qid : Nat) :
    ({ db with quotes := db.quotes.map (applyUpdate f qid) } : DB).WF := by
  obtain ⟨h1, h2, h3, h4, h5, h6, h7, h8⟩ := hwf
  have hids : (db.quotes.map (applyUpdate f qid)).map QuoteRow.id =
      db.quotes.map QuoteRow.id := by
    rw [List.map_map]
    exact List.map_congr_left (fun r _ => applyUpdate_id f qid r)
  refine ⟨?_, h2, ?_, h4, h5, h6, ?_, h8⟩
  · intro q hq
    rcases List.mem_map.mp hq with ⟨r, hr, rfl⟩
    rw [applyUpdate_id]
    exact h1 r hr
  · rw [hids]
    exact h3
  · intro p hp
    rcases h7 p hp with ⟨q, hq, hid⟩
    exact ⟨applyUpdate f qid q, List.mem_map_of_mem _ hq,
      by rw [applyUpdate_id]; exact hid⟩

theorem filter_qt_wf {db : DB} (hwf : db.WF) (qid : Nat) :
    ({ db with
      quote_tags := db.quote_tags.filter (fun p => !(p.1 == qid)) } : DB).WF := by
  obtain ⟨h1, h2, h3, h4, h5, h6, h7, h8⟩ := hwf
  refine ⟨h1, h2, h3, h4, h5, h6.filter _, ?_, ?_⟩
  · intro p hp
    exact h7 p (List.mem_of_mem_filter hp)
  · intro p hp
    exact h8 p (List.mem_of_mem_filter hp)

theorem update_quote_tags_some (db : DB) (qid : Nat) (f : UpdateFields)
    (l : List String) (hl : f.tags = some l)
    (h1 : ¬ (f.text.isSome ∧ (f.text.getD "" = "" ∨ strip (f.text.getD "") = "")))
    (h2 : ¬ (f.author.isSome ∧
      (f.author.getD "" = "" ∨ strip (f.author.getD "") = "")))
    (hany : db.quotes.any (fun r => r.id == qid) = true) :
    update_quote db qid f =
      (match addTagsLoop qid l
        ({ db with
          quotes := db.quotes.map (applyUpdate f qid),
          quote_tags := db.quote_tags.filter (fun p => !(p.1 == qid)) } : DB)
        [] with
      | .ok r => .ok (true, r.2)
      | .error e => .error e) := by
  simp only [update_quote, hl]
  rw [if_neg h1, if_neg h2, if_neg (not_not_intro hany)]

theorem update_quote_tags_none (db : DB) (qid : Nat) (f : UpdateFields)
    (hl : f.tags = none)
    (h1 : ¬ (f.text.isSome ∧ (f.text.getD "" = "" ∨ strip (f.text.getD "") = "")))
    (h2 : ¬ (f.author.isSome ∧
      (f.author.getD "" = "" ∨ strip (f.author.getD "") = "")))
    (hany : db.quotes.any (fun r => r.id == qid) = true) :
    update_quote db qid f =
      .ok (true, { db with quotes := db.quotes.map (applyUpdate f qid) }) := by
  simp only [update_quote, hl]
  rw [if_neg h1, if_neg h2, if_neg (not_not_intro hany)]

/-- **C4 counterexample.** On `dbX` (whose quote 1 exists and carries "x"),
`update_quote` with the duplicate tags list `["x", "x"]` does not replace
the quote's association set: the second `INSERT INTO quote_tags` violates
the composite primary key, the call raises `sqlite3.IntegrityError`, and —
the transaction never being committed — nothing is replaced, contrary to
the claim that a supplied tags field always replaces the associations. -/
theorem C4_counterexample :
    update_quote dbX 1 { tags := some ["x", "x"] } = .error .integrity := rfl

/-- **C4 (amended).** For every existing quote id: `update_quote` with the
tags field supplied replaces the quote's full association set with the
trimmed non-empty supplied names *when those surviving names are
duplicate-free*; a tags list whose surviving names contain a duplicate
instead raises `sqlite3.IntegrityError` (second association insert hits
the composite primary key) and replaces nothing; the empty list removes
every association, so a subsequent `get_quote_by_id` reports `tags = []`;
and `update_quote` without the tags field leaves the associations
unchanged. -/
theorem C4_update_tags_replacement (db : DB) (qid : Nat) (hwf : db.WF)
    (hex : ∃ q ∈ db.quotes, q.id = qid) :
    (∀ l, (survivingTags l).Nodup →
      ∃ db', update_quote db qid { tags := some l } = .ok (true, db') ∧
        (∀ n, carriesName db' qid n ↔ n ∈ survivingTags l)) ∧
    (∀ l, ¬ (survivingTags l).Nodup →
      update_quote db qid { tags := some l } = .error .integrity) ∧
    (∃ db', update_quote db qid { tags := some [] } = .ok (true, db') ∧
      (get_quote_by_id db' qid).map Quote.tags = some []) ∧
    (∀ f : UpdateFields, f.tags = none → validField f.text →
      validField f.author →
      ∃ db', update_quote db qid f = .ok (true, db') ∧
        db'.quote_tags = db.quote_tags) := by
  have hany : db.quotes.any (fun r => r.id == qid) = true := by
    rw [List.any_eq_true]
    rcases hex with ⟨q, hq, hid⟩
    exact ⟨q, hq, by simpa using hid⟩
  have hreplace : ∀ l, (survivingTags l).Nodup →
      ∃ db', update_quote db qid { tags := some l } = .ok (true, db') ∧
        (∀ n, carriesName db' qid n ↔ n ∈ survivingTags l) := by
    intro l hnd
    obtain ⟨db₂, hdb₂⟩ : ∃ x : DB, x =
        ({ db with
          quotes := db.quotes.map (applyUpdate { tags := some l } qid),
          quote_tags := db.quote_tags.filter (fun p => !(p.1 == qid)) } : DB) :=
      ⟨_, rfl⟩
    have hwf₂ : db₂.WF := by
      rw [hdb₂]
      exact filter_qt_wf (map_applyUpdate_wf hwf { tags := some l } qid) qid
    have hq₂ : ∃ q ∈ db₂.quotes, q.id = qid := by
      rcases hex with ⟨q, hq, hid⟩
      refine ⟨applyUpdate { tags := some l } qid q, ?_, ?_⟩
      · rw [hdb₂]
        exact List.mem_map_of_mem _ hq
      · rw [applyUpdate_id]
        exact hid
    have hnc₂ : ∀ n, ¬ carriesName db₂ qid n := by
      rintro n ⟨t, ht, hn, hp⟩
      rw [hdb₂] at hp
      have hp' : (qid, t.id) ∈
          db.quote_tags.filter (fun p => !(p.1 == qid)) := hp
      rw [List.mem_filter] at hp'
      simp at hp'
    obtain ⟨db₃, hrun, hwf₃, _, _, _, _, _, hcar₃⟩ :=
      addTagsLoop_ok qid l db₂ [] hwf₂ hq₂ hnd (fun n _ => hnc₂ n)
    refine ⟨db₃, ?_, ?_⟩
    · rw [update_quote_tags_some db qid { tags := some l } l rfl
        (by rintro ⟨hs, _⟩; cases hs) (by rintro ⟨hs, _⟩; cases hs) hany]
      rw [← hdb₂, hrun]
    · intro n
      rw [hcar₃ n]
      constructor
      · rintro (hn | hn)
        · exact hn
        · exact absurd hn (hnc₂ n)
      · exact Or.inl
  have hdup_err : ∀ l, ¬ (survivingTags l).Nodup →
      update_quote db qid { tags := some l } = .error .integrity := by
    intro l hdup
    obtain ⟨db₂, hdb₂⟩ : ∃ x : DB, x =
        ({ db with
          quotes := db.quotes.map (applyUpdate { tags := some l } qid),
          quote_tags := db.quote_tags.filter (fun p => !(p.1 == qid)) } : DB) :=
      ⟨_, rfl⟩
    have hwf₂ : db₂.WF := by
      rw [hdb₂]
      exact filter_qt_wf (map_applyUpdate_wf hwf { tags := some l } qid) qid
    have hq₂ : ∃ q ∈ db₂.quotes, q.id = qid := by
      rcases hex with ⟨q, hq, hid⟩
      refine ⟨applyUpdate { tags := some l } qid q, ?_, ?_⟩
      · rw [hdb₂]
        exact List.mem_map_of_mem _ hq
      · rw [applyUpdate_id]
        exact hid
    have hrun := addTagsLoop_err qid l db₂ [] hwf₂ hq₂ (Or.inl hdup)
    rw [update_quote_tags_some db qid { tags := some l } l rfl
      (by rintro ⟨hs, _⟩; cases hs) (by rintro ⟨hs, _⟩; cases hs) hany]
    rw [← hdb₂, hrun]
  refine ⟨fun l hnd => ?_, hdup_err, ?_, ?_⟩
  · exact hreplace l hnd
  · obtain ⟨db₂, hdb₂⟩ : ∃ x : DB, x =
        ({ db with
          quotes := db.quotes.map (applyUpdate { tags := some [] } qid),
          quote_tags := db.quote_tags.filter (fun p => !(p.1 == qid)) } : DB) :=
      ⟨_, rfl⟩
    refine ⟨db₂, ?_, ?_⟩
    · rw [update_quote_tags_some db qid { tags := some [] } [] rfl
        (by rintro ⟨hs, _⟩; cases hs) (by rintro ⟨hs, _⟩; cases hs) hany]
      rw [← hdb₂]
      rfl
    · have hq₂ : ∃ q ∈ db₂.quotes, q.id = qid := by
        rcases hex with ⟨q, hq, hid⟩
        refine ⟨applyUpdate { tags := some [] } qid q, ?_, ?_⟩
        · rw [hdb₂]
          exact List.mem_map_of_mem _ hq
        · rw [applyUpdate_id]
          exact hid
      have hgt : getTagsForQuote db₂ qid = [] := by
        unfold getTagsForQuote
        have hfil : db₂.quote_tags.filter (fun p => p.1 == qid) = [] := by
          rw [List.eq_nil_iff_forall_not_mem]
          intro p hp
          rw [List.mem_filter] at hp
          rcases hp with ⟨hp₁, hp₂⟩
          rw [hdb₂] at hp₁
          have hp₁' : p ∈ db.quote_tags.filter (fun p => !(p.1 == qid)) := hp₁
          rw [List.mem_filter] at hp₁'
          rw [hp₂] at hp₁'
          simp at hp₁'
        rw [hfil]
        rfl
      cases hfind : db₂.quotes.find? (fun r => r.id == qid) with
      | none =>
        exfalso
        rcases hq₂ with ⟨q, hq, hid⟩
        have := List.find?_eq_none.mp hfind q hq
        simp [hid] at this
      | some r =>
        have hrid : r.id = qid := by simpa using List.find?_some hfind
        simp only [get_quote_by_id, hfind]
        show some (rowToQuote r (getTagsForQuote db₂ r.id)).tags = some []
        rw [show (rowToQuote r (getTagsForQuote db₂ r.id)).tags =
          getTagsForQuote db₂ r.id from rfl, hrid, hgt]
  · intro f hnone htext hauthor
    refine ⟨{ db with quotes := db.quotes.map (applyUpdate f qid) }, ?_, rfl⟩
    exact update_quote_tags_none db qid f hnone (validField_not_invalid htext)
      (validField_not_invalid hauthor) hany

/-- Witness for C4's amended theorem: on `dbX` (quote 1 tagged "x"), update
with `tags = []` clears the associations so a subsequent read reports no
tags, and update with the duplicate list `["x", "x"]` raises
IntegrityError. -/
theorem C4_update_tags_replacement_witness :
    (∃ db', update_quote dbX 1 { tags := some [] } = .ok (true, db') ∧
      (get_quote_by_id db' 1).map Quote.tags = some []) ∧
    update_quote dbX 1 { tags := some ["x", "x"] } = .error .integrity :=
  ⟨(C4_update_tags_replacement dbX 1 (by decide) ⟨⟨1, "t", "a", none, none, 0⟩,
      by decide, rfl⟩).2.2.1,
   (C4_update_tags_replacement dbX 1 (by decide) ⟨⟨1, "t", "a", none, none, 0⟩,
      by decide, rfl⟩).2.1 ["x", "x"] (by decide)⟩

/-! ### Lemmas about `add_tag_to_quote` -/

theorem length_filter_pair_eq_one {l : List (Nat × Nat)} {a : Nat × Nat}
    (hnd : l.Nodup) (ha : a ∈ l) :
    (l.filter (fun p => p = a)).length = 1 := by
  induction l with
  | nil => cases ha
  | cons b l ih =>
    rw [List.nodup_cons] at hnd
    rcases List.mem_cons.mp ha with rfl | ha'
    · have hnil : l.filter (fun p => p = a) = [] := by
        rw [List.eq_nil_iff_forall_not_mem]
        intro p hp
        rw [List.mem_filter] at hp
        have : p = a := by simpa using hp.2
        exact hnd.1 (this ▸ hp.1)
      rw [List.filter_cons]
      simp [hnil]
    · have hba : ¬ (b = a) := fun hb => hnd.1 (hb ▸ ha')
      rw [List.filter_cons]
      simp only [decide_eq_true_eq]
      rw [if_neg hba]
      exact ih hnd.2 ha'

theorem getOrCreateTag_found {db : DB} {t : TagRow} (hwf : db.WF)
    (ht : t ∈ db.tags) :
    getOrCreateTag db t.name = (t.id, db) := by
  unfold getOrCreateTag
  cases hfind : db.tags.find? (fun u => u.name == t.name) with
  | none =>
    exfalso
    have := List.find?_eq_none.mp hfind t ht
    simp at this
  | some u =>
    have hu := List.mem_of_find?_eq_some hfind
    have hname : u.name = t.name := by simpa using List.find?_some hfind
    have hut : u = t := List.inj_on_of_nodup_map hwf.tagNames hu ht hname
    rw [hut]

theorem add_tag_again {db : DB} {qid tid : Nat} {tag : String} (hwf : db.WF)
    (hany : db.quotes.any (fun r => r.id == qid) = true)
    (hne : ¬ (tag = "" ∨ strip tag = ""))
    (t : TagRow) (ht : t ∈ db.tags) (hname : t.name = strip tag)
    (hid : t.id = tid) (hmem : (qid, tid) ∈ db.quote_tags) :
    add_tag_to_quote db qid tag = .ok (true, db) := by
  have hfound : getOrCreateTag db (strip tag) = (tid, db) := by
    have := getOrCreateTag_found hwf ht
    rw [hname, hid] at this
    exact this
  simp only [add_tag_to_quote]
  rw [if_neg hne, if_neg (not_not_intro hany)]
  simp only [hfound]
  rw [if_pos (by simpa using List.elem_iff.mpr hmem)]

/-- **C7.** `add_tag_to_quote` raises `InvalidInputError` for every tag that
is empty after stripping; returns false for every absent quote id; and is
idempotent on an existing quote: after the first call exactly one
association exists between the quote and the (unique) tag row carrying the
stripped name, and a second call returns true leaving the store unchanged. -/
theorem C7_add_tag_idempotent (db : DB) (qid : Nat) (tag : String)
    (hwf : db.WF) :
    (strip tag = "" →
      add_tag_to_quote db qid tag =
        .error (.invalidInput "Tag name cannot be empty")) ∧
    (strip tag ≠ "" → (∀ q ∈ db.quotes, q.id ≠ qid) →
      add_tag_to_quote db qid tag = .ok (false, db)) ∧
    (strip tag ≠ "" → (∃ q ∈ db.quotes, q.id = qid) →
      ∃ db₁ tid, add_tag_to_quote db qid tag = .ok (true, db₁) ∧
        (∃ t ∈ db₁.tags, t.id = tid ∧ t.name = strip tag) ∧
        (db₁.quote_tags.filter (fun p => p = (qid, tid))).length = 1 ∧
        add_tag_to_quote db₁ qid tag = .ok (true, db₁)) := by
  refine ⟨?_, ?_, ?_⟩
  · intro h
    simp only [add_tag_to_quote]
    rw [if_pos (Or.inr h)]
  · intro h habs
    have hne : ¬ (tag = "" ∨ strip tag = "") := by
      rintro (rfl | hb)
      · exact h rfl
      · exact h hb
    have hany : ¬ db.quotes.any (fun r => r.id == qid) = true := by
      rw [List.any_eq_true]
      rintro ⟨q, hq, hid⟩
      exact habs q hq (by simpa using hid)
    simp only [add_tag_to_quote]
    rw [if_neg hne, if_pos hany]
  · intro h hex
    have hne : ¬ (tag = "" ∨ strip tag = "") := by
      rintro (rfl | hb)
      · exact h rfl
      · exact h hb
    have hany : db.quotes.any (fun r => r.id == qid) = true := by
      rw [List.any_eq_true]
      rcases hex with ⟨q, hq, hid⟩
      exact ⟨q, hq, by simpa using hid⟩
    obtain ⟨tid, db₁, hgoc⟩ :
        ∃ tid db₁, getOrCreateTag db (strip tag) = (tid, db₁) := ⟨_, _, rfl⟩
    have hqt₁ : db₁.quote_tags = db.quote_tags := by
      have := getOrCreateTag_quote_tags db (strip tag)
      rw [hgoc] at this
      exact this
    have hquotes₁ : db₁.quotes = db.quotes := by
      have := getOrCreateTag_quotes db (strip tag)
      rw [hgoc] at this
      exact this
    have hwf₁ : db₁.WF := by
      have := getOrCreateTag_wf (strip tag) hwf
      rwa [hgoc] at this
    obtain ⟨t, ht₀, htid₀, htname⟩ := getOrCreateTag_mem db (strip tag)
    rw [hgoc] at ht₀ htid₀
    have ht : t ∈ db₁.tags := ht₀
    have htid : t.id = tid := htid₀
    have hany₁ : db₁.quotes.any (fun r => r.id == qid) = true := by
      rw [hquotes₁]
      exact hany
    by_cases hmem : (qid, tid) ∈ db₁.quote_tags
    · refine ⟨db₁, tid, ?_, ⟨t, ht, htid, htname⟩, ?_, ?_⟩
      · simp only [add_tag_to_quote]
        rw [if_neg hne, if_neg (not_not_intro hany)]
        simp only [hgoc]
        rw [if_pos (by simpa using List.elem_iff.mpr hmem)]
      · exact length_filter_pair_eq_one hwf₁.qtNodup hmem
      · exact add_tag_again hwf₁ hany₁ hne t ht htname htid hmem
    · obtain ⟨db₂, hdb₂⟩ : ∃ x : DB, x = ({ db₁ with
          quote_tags := db₁.quote_tags ++ [(qid, tid)] } : DB) := ⟨_, rfl⟩
      have hwf₂ : db₂.WF := by
        rw [hdb₂]
        apply step_wf hwf hgoc hex
        intro hcar
        apply hmem
        rw [hqt₁]
        have hiff := getOrCreateTag_pair_iff (strip tag) qid hwf
        rw [hgoc] at hiff
        exact hiff.mpr hcar
      have hmem₂ : (qid, tid) ∈ db₂.quote_tags := by
        rw [hdb₂]
        exact List.mem_append_right _ (List.mem_singleton.mpr rfl)
      have hany₂ : db₂.quotes.any (fun r => r.id == qid) = true := by
        rw [hdb₂]
        exact hany₁
      have ht₂ : t ∈ db₂.tags := by
        rw [hdb₂]
        exact ht
      refine ⟨db₂, tid, ?_, ⟨t, ht₂, htid, htname⟩, ?_, ?_⟩
      · simp only [add_tag_to_quote]
        rw [if_neg hne, if_neg (not_not_intro hany)]
        simp only [hgoc]
        rw [if_neg (by simpa using fun hc => hmem (List.elem_iff.mp hc)), hdb₂]
      · exact length_filter_pair_eq_one hwf₂.qtNodup hmem₂
      · exact add_tag_again hwf₂ hany₂ hne t ht₂ htname htid hmem₂

/-- Witness for C7: on `dbX`, the empty tag errors; the absent id 7 returns
false; adding " y " to quote 1 twice yields exactly one association. -/
theorem C7_add_tag_idempotent_witness :
    (add_tag_to_quote dbX 1 "  " =
      .error (.invalidInput "Tag name cannot be empty")) ∧
    (add_tag_to_quote dbX 7 "y" = .ok (false, dbX)) ∧
    (∃ db₁ tid, add_tag_to_quote dbX 1 " y " = .ok (true, db₁) ∧
      (∃ t ∈ db₁.tags, t.id = tid ∧ t.name = strip " y ") ∧
      (db₁.quote_tags.filter (fun p => p = (1, tid))).length = 1 ∧
      add_tag_to_quote db₁ 1 " y " = .ok (true, db₁)) :=
  ⟨(C7_add_tag_idempotent dbX 1 "  " (by decide)).1 (by decide),
   (C7_add_tag_idempotent dbX 7 "y" (by decide)).2.1 (by decide) (by decide),
   (C7_add_tag_idempotent dbX 1 " y " (by decide)).2.2 (by decide)
     ⟨⟨1, "t", "a", none, none, 0⟩, by decide, rfl⟩⟩

/-! ### Lemmas about `search_quotes` tag filtering -/

theorem tagsMatchCount_eq_length {db : DB} (hwf : db.WF) (qid : Nat)
    (l : List String) :
    tagsMatchCount db qid l =
      (db.tags.filter (fun t => l.contains t.name &&
        db.quote_tags.contains (qid, t.id))).length := by
  unfold tagsMatchCount
  rw [List.dedup_eq_self.mpr, List.length_map]
  exact hwf.tagIds.sublist ((List.filter_sublist _).map TagRow.id)

theorem filtered_tag_names_nodup {db : DB} (hwf : db.WF) (qid : Nat)
    (l : List String) :
    ((db.tags.filter (fun t => l.contains t.name &&
      db.quote_tags.contains (qid, t.id))).map TagRow.name).Nodup :=
  hwf.tagNames.sublist ((List.filter_sublist _).map TagRow.name)

theorem mem_filtered_tag_names {db : DB} (qid : Nat) (l : List String)
    (n : String) :
    (n ∈ (db.tags.filter (fun t => l.contains t.name &&
      db.quote_tags.contains (qid, t.id))).map TagRow.name) ↔
      (n ∈ l ∧ carriesName db qid n) := by
  constructor
  · intro hn
    rcases List.mem_map.mp hn with ⟨t, htF, rfl⟩
    rw [List.mem_filter, Bool.and_eq_true] at htF
    exact ⟨List.elem_iff.mp htF.2.1, ⟨t, htF.1, rfl, List.elem_iff.mp htF.2.2⟩⟩
  · rintro ⟨hnl, t, htm, hname, hp⟩
    apply List.mem_map.mpr
    refine ⟨t, ?_, hname⟩
    rw [List.mem_filter, Bool.and_eq_true]
    exact ⟨htm, by rw [hname]; exact List.elem_iff.mpr hnl,
      List.elem_iff.mpr hp⟩

theorem tagsMatchCount_iff {db : DB} (hwf : db.WF) (qid : Nat)
    {l : List String} (hnd : l.Nodup) :
    tagsMatchCount db qid l = l.length ↔ ∀ n ∈ l, carriesName db qid n := by
  rw [tagsMatchCount_eq_length hwf, ← List.length_map _ TagRow.name]
  constructor
  · intro hlen n hn
    by_contra hnc
    have hsub' : (db.tags.filter (fun t => l.contains t.name &&
        db.quote_tags.contains (qid, t.id))).map TagRow.name ⊆ l.erase n := by
      intro m hm
      rcases (mem_filtered_tag_names qid l m).mp hm with ⟨hml, hmc⟩
      have hmn : m ≠ n := fun he => hnc (he ▸ hmc)
      exact (List.mem_erase_of_ne hmn).mpr hml
    have hle := (List.subperm_of_subset
      (filtered_tag_names_nodup hwf qid l) hsub').length_le
    rw [List.length_erase_of_mem hn, hlen] at hle
    have hpos : 0 < l.length := List.length_pos_of_mem hn
    omega
  · intro hall
    have hsub : (db.tags.filter (fun t => l.contains t.name &&
        db.quote_tags.contains (qid, t.id))).map TagRow.name ⊆ l := by
      intro m hm
      exact ((mem_filtered_tag_names qid l m).mp hm).1
    have hsup : l ⊆ (db.tags.filter (fun t => l.contains t.name &&
        db.quote_tags.contains (qid, t.id))).map TagRow.name := by
      intro n hn
      exact (mem_filtered_tag_names qid l n).mpr ⟨hn, hall n hn⟩
    have h1 := (List.subperm_of_subset
      (filtered_tag_names_nodup hwf qid l) hsub).length_le
    have h2 := (List.subperm_of_subset hnd hsup).length_le
    omega

theorem tagsMatchCount_le_dedup {db : DB} (hwf : db.WF) (qid : Nat)
    (l : List String) :
    tagsMatchCount db qid l ≤ l.dedup.length := by
  rw [tagsMatchCount_eq_length hwf, ← List.length_map _ TagRow.name]
  apply List.Subperm.length_le
  apply List.subperm_of_subset (filtered_tag_names_nodup hwf qid l)
  intro m hm
  exact List.mem_dedup.mpr ((mem_filtered_tag_names qid l m).mp hm).1

theorem search_quotes_tags_only (db : DB) (l : List String) (hne : l ≠ []) :
    search_quotes db none none (some l) =
      (sortRowsDesc ((db.quotes.filter
        (fun q => decide (tagsMatchCount db q.id l = l.length))).dedup)).map
        (fun r => rowToQuote r (getTagsForQuote db r.id)) := by
  have h1 : listTruthy (some l) = true := by
    unfold listTruthy
    simpa using hne
  have h2 : strTruthy none = false := rfl
  simp only [search_quotes, Option.getD_some, Option.getD_none, h1, h2,
    Bool.not_true, Bool.not_false, Bool.false_or, Bool.true_or, Bool.and_true]

/-- **C1 counterexample.** In `dbX` quote 1 carries the tag "x", yet
`search_quotes` with the duplicated tags list `["x", "x"]` returns nothing:
the `HAVING COUNT(DISTINCT t.id) = ?` parameter is `len(tags) = 2`, not the
number of distinct requested tags, so a quote carrying the duplicated tag
is *not* returned, contrary to the claim. -/
theorem C1_counterexample :
    carriesName dbX 1 "x" ∧
      search_quotes dbX none none (some ["x", "x"]) = [] :=
  ⟨by decide, rfl⟩

/-- **C1 (amended).** For every `search_quotes` call with a non-empty tags
list: the matched-distinct-tag count is compared with the *raw length* of
the list, so for a duplicate-free list a quote is in the result iff it
carries every listed tag (AND semantics), while a tags list containing
duplicates of the same name returns no quotes at all. -/
theorem C1_search_tags_and (db : DB) (l : List String) (hwf : db.WF)
    (hne : l ≠ []) :
    (l.Nodup → ∀ q ∈ db.quotes,
      ((∃ r ∈ search_quotes db none none (some l), r.id = q.id) ↔
        ∀ n ∈ l, carriesName db q.id n)) ∧
    (¬ l.Nodup → search_quotes db none none (some l) = []) := by
  constructor
  · intro hnd q hq
    rw [search_quotes_tags_only db l hne]
    constructor
    · rintro ⟨r, hr, hrid⟩
      rcases List.mem_map.mp hr with ⟨row, hrow, rfl⟩
      rw [mem_sortRowsDesc, List.mem_dedup, List.mem_filter] at hrow
      have hcnt : tagsMatchCount db row.id l = l.length := by
        simpa using hrow.2
      have hid : row.id = q.id := hrid
      rw [hid] at hcnt
      exact (tagsMatchCount_iff hwf q.id hnd).mp hcnt
    · intro hall
      refine ⟨rowToQuote q (getTagsForQuote db q.id), ?_, rfl⟩
      apply List.mem_map.mpr
      refine ⟨q, ?_, rfl⟩
      rw [mem_sortRowsDesc, List.mem_dedup, List.mem_filter]
      exact ⟨hq, by
        simpa using (tagsMatchCount_iff hwf q.id hnd).mpr hall⟩
  · intro hdup
    rw [search_quotes_tags_only db l hne]
    have hfil : db.quotes.filter
        (fun q => decide (tagsMatchCount db q.id l = l.length)) = [] := by
      rw [List.filter_eq_nil_iff]
      intro q hq
      simp only [decide_eq_true_eq]
      intro hcnt
      have hle := tagsMatchCount_le_dedup hwf q.id l
      have hlt : l.dedup.length < l.length := by
        rcases Nat.lt_or_ge l.dedup.length l.length with h | h
        · exact h
        · exfalso
          have hsl := List.dedup_sublist l
          have hlen : l.dedup.length = l.length :=
            Nat.le_antisymm hsl.length_le h
          exact hdup (List.dedup_eq_self.mp (hsl.eq_of_length hlen))
      omega
    rw [hfil]
    rfl

/-- Witness for C1's amended theorem: in `dbX`, searching for the
duplicate-free list `["x"]` finds quote 1, which carries "x". -/
theorem C1_search_tags_and_witness :
    (∃ r ∈ search_quotes dbX none none (some ["x"]), r.id = 1) ↔
      ∀ n ∈ ["x"], carriesName dbX 1 n :=
  (C1_search_tags_and dbX ["x"] (by decide) (by decide)).1 (by decide)
    ⟨1, "t", "a", none, none, 0⟩ (by decide)

/-! ### Lemmas about seeding -/

/-- Validity of one seed entry: non-empty stripped text and author and a
duplicate-free surviving tag list, which is exactly what makes the
`add_quote` of the seeding loop succeed. -/
def SeedEntry.valid (e : SeedEntry) : Prop :=
  strip e.text ≠ "" ∧ strip e.author ≠ "" ∧ (survivingTags e.tags).Nodup

instance (e : SeedEntry) : Decidable e.valid := by
  unfold SeedEntry.valid
  infer_instance

theorem seedLoop_spec (entries : List SeedEntry) :
    ∀ (db : DB) (n : Nat), db.WF →
      (∀ e ∈ entries, e.valid) →
      ∃ db', seedLoop entries db n = (n + entries.length, db') ∧
        db'.WF ∧ db'.quotes.length = db.quotes.length + entries.length := by
  induction entries with
  | nil =>
    intro db n hwf _
    exact ⟨db, rfl, hwf, rfl⟩
  | cons e rest ih =>
    intro db n hwf hval
    obtain ⟨ht, ha, hnd⟩ := hval e (List.mem_cons_self _ _)
    obtain ⟨db₁, hadd, hwf₁, hquotes₁, _, _⟩ :=
      add_quote_ok e.text e.author e.source e.year (some e.tags) hwf ht ha hnd
    obtain ⟨db', hrun, hwf', hlen⟩ :=
      ih db₁ (n + 1) hwf₁ (fun x hx => hval x (List.mem_cons_of_mem _ hx))
    refine ⟨db', ?_, hwf', ?_⟩
    · simp only [seedLoop, hadd, hrun]
      congr 1
      simp only [List.length_cons]
      omega
    · rw [hlen, hquotes₁]
      simp only [List.length_append, List.length_cons, List.length_nil]
      omega

theorem length_get_all_quotes (db : DB) :
    (get_all_quotes db).length = db.quotes.length := by
  unfold get_all_quotes
  rw [List.length_map, length_sortRowsDesc]

/-- **C8.** For every store containing at least one quote: `seed_database`
with `force = false` inserts nothing and returns `(0, currentTotal)` with
the store unchanged; with `force = true` it runs the full fixed seed set
again — every insert succeeds, `countInserted` is the seed-set size, and
the store grows by that amount (duplicates accepted, no deduplication). -/
theorem C8_seed_idempotent_and_force (db : DB) (hwf : db.WF)
    (hne : db.quotes ≠ []) :
    seed_database db false = ((0, db.quotes.length), db) ∧
    (∃ db', seed_database db true =
      ((SEED_QUOTES.length, db.quotes.length + SEED_QUOTES.length), db') ∧
      db'.WF) := by
  constructor
  · have hseeded : check_if_seeded db = true := by
      unfold check_if_seeded
      simpa using hne
    simp only [seed_database]
    rw [if_pos (by simp [hseeded]), length_get_all_quotes]
  · have hval : ∀ e ∈ SEED_QUOTES, e.valid := by decide
    obtain ⟨db', hrun, hwf', hlen⟩ := seedLoop_spec SEED_QUOTES db 0 hwf hval
    refine ⟨db', ?_, hwf'⟩
    simp only [seed_database]
    rw [if_neg (by simp)]
    simp only [hrun]
    rw [length_get_all_quotes, hlen]
    simp

/-- Witness for C8 at `dbX` (which contains one quote). -/
theorem C8_seed_idempotent_and_force_witness :
    seed_database dbX false = ((0, dbX.quotes.length), dbX) ∧
    (∃ db', seed_database dbX true =
      ((SEED_QUOTES.length, dbX.quotes.length + SEED_QUOTES.length), db') ∧
      db'.WF) :=
  C8_seed_idempotent_and_force dbX (by decide) (by decide)
